import Mathlib

/-!
Verification of the `eval` package of the gore repository (src/eval/eval.go).

The program is modelled as a shallow embedding over `List Char` (the source is
byte-oriented Go; all behaviour relevant to the claims is on ASCII text, where
bytes and characters coincide).  Pure Go functions become Lean functions;
Go `panic` becomes `Except String`; the external build-and-run collaborator
(`go run` on a temp file) is a function parameter `runner` mapping the
source text handed to it to its combined output together with a success flag
(`true` models a nil error from `cmd.CombinedOutput`).

Regular-expression operations of the source are translated to explicit
scanning functions implementing Go RE2 leftmost-first match semantics for the
concrete patterns appearing in the source; each translation is documented at
its definition.
-/

namespace Gore

/-- Text is modelled as a list of characters. -/
abbrev Chars := List Char

/-- Go regexp `\w`: `[0-9A-Za-z_]`. -/
def isWordChar (c : Char) : Bool :=
  ('a' ≤ c && c ≤ 'z') || ('A' ≤ c && c ≤ 'Z') || ('0' ≤ c && c ≤ '9') || c = '_'

/-- Go regexp `\s`: `[\t\n\f\r ]`. -/
def isGoSpace (c : Char) : Bool :=
  c = ' ' || c = '\t' || c = '\n' || c = '\u000c' || c = '\r'

/-- Go regexp `[a-z]`. -/
def isLowerAZ (c : Char) : Bool := 'a' ≤ c && c ≤ 'z'

/-- Go regexp `\d`: `[0-9]`. -/
def isDigitChar (c : Char) : Bool := '0' ≤ c && c ≤ '9'

/-- Decimal digit character of `n < 10` (as produced by Go's `%d`/`Sprintf`). -/
def digitChar (n : Nat) : Char := Char.ofNat (48 + n)

/-- Decimal digits of `n`, most significant first, computed with explicit fuel
so that the definition is structural (kernel-computable).  Mirrors Go's
`%d` formatting of a nonnegative integer. -/
def natDigitsAux : Nat → Nat → List Char
  | 0, _ => []
  | fuel + 1, n => if n < 10 then [digitChar n] else natDigitsAux fuel (n / 10) ++ [digitChar (n % 10)]

/-- Decimal representation of `n` (Go `%d` / `strconv` formatting). -/
def natDigits (n : Nat) : List Char := natDigitsAux (n + 1) n

/-- Value of a string of decimal digits (Go `strconv.Atoi` on an all-digit
string, ignoring overflow; overflow is handled at the call site). -/
def digitsToNat (ds : List Char) : Nat := ds.foldl (fun acc c => 10 * acc + (c.toNat - 48)) 0

theorem digitsToNat_append (xs ys : List Char) :
    digitsToNat (xs ++ ys) = ys.foldl (fun acc c => 10 * acc + (c.toNat - 48)) (digitsToNat xs) := by
  simp [digitsToNat, List.foldl_append]

theorem digitChar_isDigit {n : Nat} (h : n < 10) : isDigitChar (digitChar n) = true := by
  interval_cases n <;> decide

theorem digitChar_toNat {n : Nat} (h : n < 10) : (digitChar n).toNat = 48 + n := by
  interval_cases n <;> decide

theorem natDigitsAux_spec : ∀ (fuel n : Nat), n < fuel →
    natDigitsAux fuel n ≠ [] ∧ (natDigitsAux fuel n).all isDigitChar = true ∧
      digitsToNat (natDigitsAux fuel n) = n := by
  intro fuel
  induction fuel with
  | zero => intro n h; omega
  | succ fuel ih =>
    intro n h
    by_cases hn : n < 10
    · refine ⟨by simp [natDigitsAux, hn], ?_, ?_⟩
      · simp [natDigitsAux, hn, List.all_cons, digitChar_isDigit hn]
      · simp [natDigitsAux, hn, digitsToNat, List.foldl, digitChar_toNat hn]
    · have hfuel : n / 10 < fuel := by omega
      obtain ⟨h1, h2, h3⟩ := ih (n / 10) hfuel
      refine ⟨by simp [natDigitsAux, hn], ?_, ?_⟩
      · have hlt : n % 10 < 10 := Nat.mod_lt _ (by omega)
        simp only [natDigitsAux, if_neg hn, List.all_append, List.all_cons, List.all_nil]
        simp [h2, digitChar_isDigit hlt]
      · simp only [natDigitsAux, if_neg hn, digitsToNat_append, h3]
        have hlt : n % 10 < 10 := Nat.mod_lt _ (by omega)
        simp [List.foldl, digitChar_toNat hlt]
        omega

theorem natDigits_ne_nil (n : Nat) : natDigits n ≠ [] :=
  (natDigitsAux_spec (n + 1) n (Nat.lt_succ_self n)).1

theorem natDigits_all_digit (n : Nat) : (natDigits n).all isDigitChar = true :=
  (natDigitsAux_spec (n + 1) n (Nat.lt_succ_self n)).2.1

theorem digitsToNat_natDigits (n : Nat) : digitsToNat (natDigits n) = n :=
  (natDigitsAux_spec (n + 1) n (Nat.lt_succ_self n)).2.2

theorem isDigitChar_ne_newline {c : Char} (h : isDigitChar c = true) : c ≠ '\n' := by
  intro hc; subst hc; simp [isDigitChar] at h

theorem isDigitChar_ne_slash {c : Char} (h : isDigitChar c = true) : c ≠ '/' := by
  intro hc; subst hc; simp [isDigitChar] at h

/-! ### Line splitting (Go `strings.Split(s, "\n")`) -/

/-- Go `strings.Split(s, "\n")`: the (possibly empty) segments of `s` between
newline characters; a trailing newline yields a final empty segment. -/
def splitNl : Chars → List Chars
  | [] => [[]]
  | c :: t =>
    if c = '\n' then [] :: splitNl t
    else
      match splitNl t with
      | [] => [[c]]
      | h :: r => (c :: h) :: r

/-- Join newline-free lines, terminating each with a newline.  This is the
canonical form of a text that ends in a newline. -/
def joinNl (L : List Chars) : Chars := (L.map (· ++ ['\n'])).flatten

/-! ### Line-number markers (`embedLineNumbers` / `extractLineNumbers`)

`embedLineNumbers` (eval.go:205) appends `//#k` before the `k`-th newline
(after ensuring a trailing newline), and panics via an out-of-range index when
the input is empty.  `extractLineNumbers` (eval.go:324) splits on newlines,
records `newLine ↦ oldLine` for every line carrying a marker — the Go regexp
`(?m)//#(\d+)$`, i.e. the leftmost position from which the rest of the line is
exactly `//#` followed by one or more digits — and strips all markers.
Since that pattern cannot span a newline and always extends to the end of a
line, Go's global `ReplaceAllString` coincides with per-line removal of the
(unique) match. -/

/-- The end-of-line marker `//#k`. -/
def marker (k : Nat) : Chars := '/' :: '/' :: '#' :: natDigits k

def embedLineNumbersAux : Chars → Nat → Chars
  | [], _ => []
  | c :: t, k =>
    if c = '\n' then marker (k + 1) ++ '\n' :: embedLineNumbersAux t (k + 1)
    else c :: embedLineNumbersAux t k

/-- eval.go:205.  `code[len(code)-1]` panics with an index-out-of-range runtime
error on empty input; otherwise a trailing newline is ensured and every
newline is prefixed with a marker recording its (1-based) line number. -/
def embedLineNumbers (code : Chars) : Except String Chars :=
  match code.getLast? with
  | none => .error "runtime error: index out of range [-1]"
  | some c =>
    let code' := if c = '\n' then code else code ++ ['\n']
    .ok (embedLineNumbersAux code' 0)

/-- Does the whole string match `//#\d+` (with at least one digit)?  This is
the condition for the Go pattern `//#(\d+)$` to match at the current
position of a line. -/
def isMarkerFrom : Chars → Bool
  | a :: b :: c :: rest => a = '/' && b = '/' && c = '#' && !rest.isEmpty && rest.all isDigitChar
  | _ => false

/-- Leftmost match of `//#(\d+)$` within a newline-free line: its start
position and the numeric value of the digit group. -/
def findMarker : Chars → Option (Nat × Nat)
  | [] => none
  | c :: t =>
    if isMarkerFrom (c :: t) then some (0, digitsToNat ((c :: t).drop 3))
    else
      match findMarker t with
      | some (p, v) => some (p + 1, v)
      | none => none

/-- Remove the marker (if any) from a line: `ReplaceAllString` with `""`,
restricted to one line. -/
def stripMarker (line : Chars) : Chars :=
  match findMarker line with
  | some (p, _) => line.take p
  | none => line

/-- The `newToOldLineNums` map built by the loop of eval.go:327: one entry
`(newLineNum+1, oldLineNum)` per marker-carrying line.  `j` is the 0-based
index of the first line of `lines`. -/
def buildMap : List Chars → Nat → List (Nat × Nat)
  | [], _ => []
  | line :: rest, j =>
    match findMarker line with
    | some (_, v) => (j + 1, v) :: buildMap rest (j + 1)
    | none => buildMap rest (j + 1)

/-- eval.go:324: marker-free text plus the new-line-number → old-line-number
map. -/
def extractLineNumbers (src : Chars) : Chars × List (Nat × Nat) :=
  (List.intercalate ['\n'] ((splitNl src).map stripMarker), buildMap (splitNl src) 0)

/-! ### Diagnostic remapping (`remapCompileErrorLines`, eval.go:303) -/

/-- Go map read `newToOldLineNums[newLine]`: zero when the key is absent. -/
def lookupZero (m : List (Nat × Nat)) (k : Nat) : Nat := ((m.lookup k).getD 0)

/-- Match of `:(\d+):` starting exactly here: the digit group and the text
after the second colon. -/
def colonNumAt : Chars → Option (List Char × Chars)
  | ':' :: t =>
    let ds := t.takeWhile isDigitChar
    if ds.isEmpty then none
    else
      match t.drop ds.length with
      | ':' :: r => some (ds, r)
      | _ => none
  | _ => none

/-- Leftmost match of the Go pattern `^.*?:(\d+):` within a newline-free line
(the lazy `.*?` makes it the earliest colon followed by one or more digits
and another colon). -/
def findColonNum : Chars → Option (List Char × Chars)
  | [] => none
  | c :: t =>
    match colonNumAt (c :: t) with
    | some r => some r
    | none => findColonNum t

/-- Largest value of Go's 64-bit `int`; `strconv.Atoi` fails above it, which
eval.go:313 turns into a panic. -/
def int64Max : Nat := 9223372036854775807

def bannerPrefix : Chars := ('#' :: ' ' :: "command-line-arguments".data)

/-- One line of the loop body of eval.go:306: matched lines are rewritten to
`oldLine:rest-after-second-colon` (plus newline), others pass through with a
newline appended. -/
def remapLine (m : List (Nat × Nat)) (line : Chars) : Except String Chars :=
  match findColonNum line with
  | some (ds, rest) =>
    if digitsToNat ds > int64Max then
      .error ("Internal error: Unable to convert " ++ String.mk ds)
    else .ok (natDigits (lookupZero m (digitsToNat ds)) ++ ':' :: rest ++ ['\n'])
  | none => .ok (line ++ ['\n'])

def remapLines (m : List (Nat × Nat)) : List Chars → Except String Chars
  | [] => .ok []
  | line :: rest =>
    if line.isEmpty || bannerPrefix.isPrefixOf line then remapLines m rest
    else do
      let l ← remapLine m line
      let tail ← remapLines m rest
      pure (l ++ tail)

/-- eval.go:303: empty lines and the `# command-line-arguments` banner are
dropped; lines starting with a `path:line:` prefix get the prefix replaced by
the mapped original line number; everything else passes through. -/
def remapCompileErrorLines (err : Chars) (m : List (Nat × Nat)) : Except String Chars :=
  remapLines m (splitNl err)

/-! ### The external build-and-run collaborator and `run` (eval.go:288) -/

/-- The external collaborator (`save` + `exec.Command("go", "run", tmpfile)`):
given the marker-free source text written to the temp file it returns the
combined output and a success flag (`true` ↔ the `error` of
`CombinedOutput` was `nil`).  File-system failures of `save` are outside the
model. -/
abbrev Runner := Chars → Chars × Bool

/-- eval.go:288. -/
def run (runner : Runner) (src : Chars) : Except String (Chars × Chars) :=
  let p := extractLineNumbers src
  let r := runner p.1
  if r.2 then .ok (r.1, [])
  else do
    let d ← remapCompileErrorLines r.1 p.2
    .ok ([], d)

/-- Instrumented `run`: also reports the text handed to the collaborator. -/
def runT (runner : Runner) (src : Chars) : Except String (Chars × Chars) × List Chars :=
  (run runner src, [(extractLineNumbers src).1])

/-! ### The static import registry (eval.go:20) -/

/-- The `builtinPkgs` table, eval.go:20-145 (commented-out entries omitted, as
in the source).  Keys are unique, so an association list models the Go map
exactly. -/
def builtinPkgs : List (String × String) := [
  ("adler32", "hash/adler32"), ("aes", "crypto/aes"), ("ascii85", "encoding/ascii85"),
  ("asn1", "encoding/asn1"), ("ast", "go/ast"), ("atomic", "sync/atomic"),
  ("base32", "encoding/base32"), ("base64", "encoding/base64"), ("big", "math/big"),
  ("binary", "encoding/binary"), ("bufio", "bufio"), ("build", "go/build"),
  ("bytes", "bytes"), ("bzip2", "compress/bzip2"), ("cgi", "net/http/cgi"),
  ("cgo", "runtime/cgo"), ("cipher", "crypto/cipher"), ("cmplx", "math/cmplx"),
  ("color", "image/color"), ("crc32", "hash/crc32"), ("crc64", "hash/crc64"),
  ("crypto", "crypto"), ("csv", "encoding/csv"), ("debug", "runtime/debug"),
  ("des", "crypto/des"), ("doc", "go/doc"), ("draw", "image/draw"),
  ("driver", "database/sql/driver"), ("dsa", "crypto/dsa"), ("dwarf", "debug/dwarf"),
  ("ecdsa", "crypto/ecdsa"), ("elf", "debug/elf"), ("elliptic", "crypto/elliptic"),
  ("errors", "errors"), ("exec", "os/exec"), ("expvar", "expvar"),
  ("fcgi", "net/http/fcgi"), ("filepath", "path/filepath"), ("flag", "flag"),
  ("flate", "compress/flate"), ("fmt", "fmt"), ("fnv", "hash/fnv"),
  ("gif", "image/gif"), ("gob", "encoding/gob"), ("gosym", "debug/gosym"),
  ("gzip", "compress/gzip"), ("hash", "hash"), ("heap", "container/heap"),
  ("hex", "encoding/hex"), ("hmac", "crypto/hmac"), ("html", "html"),
  ("http", "net/http"), ("httputil", "net/http/httputil"), ("image", "image"),
  ("io", "io"), ("ioutil", "io/ioutil"), ("jpeg", "image/jpeg"),
  ("json", "encoding/json"), ("jsonrpc", "net/rpc/jsonrpc"), ("list", "container/list"),
  ("log", "log"), ("lzw", "compress/lzw"), ("macho", "debug/macho"),
  ("mail", "net/mail"), ("math", "math"), ("md5", "crypto/md5"),
  ("mime", "mime"), ("multipart", "mime/multipart"), ("net", "net"),
  ("os", "os"), ("parse", "text/template/parse"), ("parser", "go/parser"),
  ("path", "path"), ("pe", "debug/pe"), ("pem", "encoding/pem"),
  ("pkix", "crypto/x509/pkix"), ("png", "image/png"), ("pprof", "net/http/pprof"),
  ("printer", "go/printer"), ("rand", "math/rand"), ("rc4", "crypto/rc4"),
  ("reflect", "reflect"), ("regexp", "regexp"), ("ring", "container/ring"),
  ("rpc", "net/rpc"), ("rsa", "crypto/rsa"), ("runtime", "runtime"),
  ("scanner", "text/scanner"), ("sha1", "crypto/sha1"), ("sha256", "crypto/sha256"),
  ("sha512", "crypto/sha512"), ("signal", "os/signal"), ("smtp", "net/smtp"),
  ("sort", "sort"), ("sql", "database/sql"), ("strconv", "strconv"),
  ("strings", "strings"), ("subtle", "crypto/subtle"), ("suffixarray", "index/suffixarray"),
  ("sync", "sync"), ("syntax", "regexp/syntax"), ("syscall", "syscall"),
  ("syslog", "log/syslog"), ("tabwriter", "text/tabwriter"), ("tar", "archive/tar"),
  ("textproto", "net/textproto"), ("time", "time"), ("tls", "crypto/tls"),
  ("token", "go/token"), ("unicode", "unicode"), ("unsafe", "unsafe"),
  ("url", "net/url"), ("user", "os/user"), ("utf16", "unicode/utf16"),
  ("utf8", "unicode/utf8"), ("x509", "crypto/x509"), ("xml", "encoding/xml"),
  ("zip", "archive/zip"), ("zlib", "compress/zlib")]

/-! ### Import inference (`inferPackages`, eval.go:239)

`pkgPattern = [a-z]\w+\.` — a lowercase letter, one or more word characters,
a dot.  At a given position the match is forced: the greedy `\w+` must take
the maximal word-character run (a shorter run is followed by a word
character, never by `.`).  `FindAllString(chunk, 100000)` collects leftmost
non-overlapping matches, stopping after 100000 of them. -/

/-- Match of `[a-z]\w+\.` starting exactly here: its length. -/
def matchPkgAt : Chars → Option Nat
  | c :: t =>
    if isLowerAZ c then
      let w := t.takeWhile isWordChar
      if w.isEmpty then none
      else
        match t.drop w.length with
        | '.' :: _ => some (1 + w.length + 1)
        | _ => none
    else none
  | [] => none

/-- `pkgPattern.FindAllString(s, cap)`: leftmost non-overlapping matches, at
most `cap` of them.  `fuel` only drives the recursion; `|s| + 1` always
suffices. -/
def findPkgsAux : Nat → Nat → Chars → List Chars
  | 0, _, _ => []
  | _, _, [] => []
  | fuel + 1, cap, c :: t =>
    if cap = 0 then []
    else
      match matchPkgAt (c :: t) with
      | some len => (c :: t).take len :: findPkgsAux fuel (cap - 1) ((c :: t).drop len)
      | none => findPkgsAux fuel cap t

/-- All matches of `[a-z]\w+\.`, without the 100000 cap.  Used to state the
claims' "every token" reading. -/
def findPkgsAll : Nat → Chars → List Chars
  | 0, _ => []
  | _, [] => []
  | fuel + 1, c :: t =>
    match matchPkgAt (c :: t) with
    | some len => (c :: t).take len :: findPkgsAll fuel ((c :: t).drop len)
    | none => findPkgsAll fuel t

/-- Insertion into a Go `map[string]bool` used as a set, modelled as an
order-preserving duplicate-free list. -/
def setInsert (acc : List String) (p : String) : List String :=
  if acc.contains p then acc else acc ++ [p]

/-- eval.go:241: each match loses its trailing dot and is looked up in
`builtinPkgs`; hits populate the import set. -/
def inferPackages (chunk : Chars) : List String :=
  (findPkgsAux (chunk.length + 1) 100000 chunk).foldl
    (fun acc m =>
      match builtinPkgs.lookup (String.mk m.dropLast) with
      | some importPkg => setInsert acc importPkg
      | none => acc) []

/-- Modelled from the claim's words ("the set of canonical import paths
obtained by matching every token … and looking the short name up in the
static registry"): the same lookup applied to every match, with no cap. -/
def inferredPathsSpec (chunk : Chars) : List String :=
  (findPkgsAll (chunk.length + 1) chunk).filterMap
    (fun m => builtinPkgs.lookup (String.mk m.dropLast))

/-! ### Import repair (`repairImports`, eval.go:265)

The pattern `(?m)(\w+) redeclared as imported package name|imported and not
used: "(\w+)"`.  At a given position each alternative's match is forced (the
greedy `\w+` runs are followed by a non-word character), and Go's
leftmost-first scan prefers the first alternative; captures are collected
from leftmost non-overlapping matches. -/

def redeclaredLit : Chars := " redeclared as imported package name".data
def notUsedLit : Chars := ('i' :: "mported and not used: ".data) ++ ['"']

/-- Match of either alternative starting exactly here: the captured
identifier and the match length. -/
def matchRepairAt (s : Chars) : Option (Chars × Nat) :=
  let w := s.takeWhile isWordChar
  if !w.isEmpty && redeclaredLit.isPrefixOf (s.drop w.length) then
    some (w, w.length + redeclaredLit.length)
  else if notUsedLit.isPrefixOf s then
    let t := s.drop notUsedLit.length
    let w2 := t.takeWhile isWordChar
    if !w2.isEmpty then
      match t.drop w2.length with
      | '"' :: _ => some (w2, notUsedLit.length + w2.length + 1)
      | _ => none
    else none
  else none

/-- `FindAllStringSubmatch(err, -1)`, keeping the captured identifier of each
match. -/
def findRepairsAux : Nat → Chars → List Chars
  | 0, _ => []
  | _, [] => []
  | fuel + 1, c :: t =>
    match matchRepairAt (c :: t) with
    | some (w, len) => w :: findRepairsAux fuel ((c :: t).drop len)
    | none => findRepairsAux fuel t

/-- The identifiers captured by `repairImports`' regexp over a diagnostic. -/
def capturedPkgs (err : Chars) : List String :=
  (findRepairsAux (err.length + 1) err).map String.mk

/-- eval.go:265: each captured identifier that is a member of the import set
is removed from it; the flag records whether any removal happened.  The Go
map is passed by reference, so the mutated set is returned explicitly. -/
def repairImports (err : Chars) (pkgsToImport : List String) : Bool × List String :=
  (capturedPkgs err).foldl
    (fun st pkg => if st.2.contains pkg then (true, st.2.erase pkg) else st)
    (false, pkgsToImport)

/-! ### Program assembly (`buildMain`, eval.go:348) -/

/-- The fixed part of the template before the inferred import lines. -/
def templateHead : Chars :=
  ("\npackage main\nimport " ++ "\"fmt\"\n").data

/-- The template between the import lines and the global chunks: the `__p`
helper.  `{`/`}` appear as their character codes. -/
def templateHelper : Chars :=
  ("\nfunc __p(values ...interface" ++ "\x7b\x7d" ++ ")" ++ "\x7b" ++
   "\n\tfor _, v := range values " ++ "\x7b" ++
   "\n             fmt.Printf(" ++ "\"%v\\n\"" ++ ", v)\n\t" ++ "\x7d" ++ "\n" ++ "\x7d" ++ "\n").data

/-- The template between the global chunks and the main-wrapped statements. -/
def templateMain : Chars := ("\nfunc main() " ++ "\x7b" ++ "\n     ").data

/-- The template tail after the statements. -/
def templateTail : Chars := ("\n" ++ "\x7d" ++ "\n").data

/-- One `import "k"` line. -/
def importLine (k : String) : Chars := ("import " ++ "\"" ++ k ++ "\"\n").data

/-- eval.go:348.  `delete(pkgsToImport, "fmt")` mutates the caller's map, so
the pruned set is returned alongside the assembled text.  Go map iteration
order is unspecified; the list order of the model stands in for it (no claim
depends on the order of the import lines). -/
def buildMain (global nonGlobal : Chars) (pkgsToImport : List String) : Chars × List String :=
  let pkgs := pkgsToImport.erase "fmt"
  let imports := (pkgs.map importLine).flatten
  (templateHead ++ imports ++ templateHelper ++ global ++ templateMain ++ nonGlobal ++ templateTail,
   pkgs)

/-! ### Build-and-repair driver (`buildAndExec`, eval.go:253) -/

/-- eval.go:253: build, run, and on a non-empty diagnostic repair the import
set and rebuild at most once. -/
def buildAndExec (runner : Runner) (global nonGlobal : Chars) (pkgsToImport : List String) :
    Except String (Chars × Chars) := do
  let (src, pkgs1) := buildMain global nonGlobal pkgsToImport
  let (out, err) ← run runner src
  if err ≠ [] then
    let (dups, pkgs2) := repairImports err pkgs1
    if dups then
      let (src2, _) := buildMain global nonGlobal pkgs2
      run runner src2
    else pure (out, err)
  else pure (out, err)

/-- Instrumented `buildAndExec`: additionally counts the collaborator
invocations. -/
def buildAndExecT (runner : Runner) (global nonGlobal : Chars) (pkgsToImport : List String) :
    Except String (Chars × Chars) × Nat :=
  let (src, pkgs1) := buildMain global nonGlobal pkgsToImport
  match run runner src with
  | .error e => (.error e, 1)
  | .ok (out, err) =>
    if err ≠ [] then
      let (dups, pkgs2) := repairImports err pkgs1
      if dups then
        let (src2, _) := buildMain global nonGlobal pkgs2
        (run runner src2, 2)
      else (.ok (out, err), 1)
    else (.ok (out, err), 1)

/-! ### Alias expansion (`expandAliases`, eval.go:195)

The pattern `(?m)^\s*p +(.*)$`, replaced by `__p($1)`.  A match can only
start at the beginning of the text or just after a newline; at such an
anchor the greedy `\s*` must take the maximal whitespace run (a shorter run
is followed by whitespace, not by `p`), after `p` at least one space is
required, and `(.*)` takes the rest of the line.  Note that `\s` includes
newlines, so a match may absorb blank lines preceding the `p` line — that
behaviour of the source is preserved. -/

/-- Match of `\s*p +(.*)` at an anchor: the capture and what follows the
match (the terminating newline onwards, or nothing at end of input). -/
def pAliasAt (s : Chars) : Option (Chars × Chars) :=
  let w := s.takeWhile isGoSpace
  match s.drop w.length with
  | 'p' :: u =>
    let sp := u.takeWhile (· = ' ')
    if sp.isEmpty then none
    else
      let v := u.drop sp.length
      let cap := v.takeWhile (· ≠ '\n')
      some (cap, v.drop cap.length)
  | _ => none

def expandAliasesAux : Nat → Chars → Chars
  | 0, s => s
  | fuel + 1, s =>
    match pAliasAt s with
    | some (cap, rest) =>
      "__p(".data ++ cap ++ ')' ::
        (match rest with
         | [] => []
         | c :: t => c :: expandAliasesAux fuel t)
    | none =>
      let pre := s.takeWhile (· ≠ '\n')
      match s.drop pre.length with
      | [] => s
      | c :: t => pre ++ c :: expandAliasesAux fuel t

/-- eval.go:195. -/
def expandAliases (code : Chars) : Chars := expandAliasesAux (code.length + 1) code

/-- eval.go:183: `regexp.MatchString("^ *package ", code)` — the anchored
pattern holds iff the text starts with spaces followed by `package `. -/
def packageDecl (code : Chars) : Bool := "package ".data.isPrefixOf (code.dropWhile (· = ' '))

/-! ### Chunking (`nextChunk`, eval.go:375) -/

/-- Does a line's tail match ` *//#\d+$` (spaces, then a marker reaching the
end of the line)?  Together with a preceding `{` or `(` this is the pattern
`openParenPattern`. -/
def openParenTail (s : Chars) : Bool := isMarkerFrom (s.dropWhile (· = ' '))

/-- `openParenPattern.FindStringIndex(line)`: start position of the leftmost
match of `(\{|\() *//#\d+$`; only the start (the bracket position) is used
by the source. -/
def findOpenParen : Chars → Option Nat
  | [] => none
  | c :: t =>
    if (c = '\x7b' || c = '\x28') && openParenTail t then some 0
    else
      match findOpenParen t with
      | some p => some (p + 1)
      | none => none

/-- The bracket-counting loop of eval.go:406: index of the character that
brings the nesting count (started at `count`) to zero, scanning for `openc`
(increment) and `closec` (decrement); brackets inside string literals are
counted too, as in the source.  `none` when the count never reaches zero. -/
def scanClose (openc closec : Char) : Chars → Nat → Option Nat
  | [], _ => none
  | c :: t, count =>
    if c = openc then (scanClose openc closec t (count + 1)).map (· + 1)
    else if c = closec then
      if count = 1 then some 0
      else (scanClose openc closec t (count - 1)).map (· + 1)
    else (scanClose openc closec t count).map (· + 1)

/-- Match of `nlPattern = ` ` *//#\d+\n` starting exactly here: its length. -/
def nlMatchAt (s : Chars) : Option Nat :=
  let sp := s.takeWhile (· = ' ')
  match s.drop sp.length with
  | '/' :: '/' :: '#' :: r =>
    let ds := r.takeWhile isDigitChar
    if ds.isEmpty then none
    else
      match r.drop ds.length with
      | '\n' :: _ => some (sp.length + 3 + ds.length + 1)
      | _ => none
  | _ => none

/-- `nlPattern.FindStringIndex(s)`: the END index of the leftmost match of
` *//#\d+\n` (only `loc[1]` is used by the source). -/
def findNlEnd : Chars → Option Nat
  | [] => none
  | c :: t =>
    match nlMatchAt (c :: t) with
    | some e => some e
    | none => (findNlEnd t).map (· + 1)

def mismatchedMsg (s : Chars) : String :=
  "Mismatched parentheses or brackets:" ++ String.mk s

def sliceMsg (hi len : Nat) : String :=
  "runtime error: slice bounds out of range [:" ++ toString hi ++ "] with length " ++ toString len

/-- eval.go:375.  The `default` arm of the source's `switch` is unreachable
(the regexp guarantees the matched character is `{` or `(`), so `closech`
is `}` exactly when the opener is `{` and `)` otherwise.  When the text
after the opener's line is empty, the source's loop never runs, `i` keeps
the stale newline index, and `code[:pos]` inside the panic's `Sprintf`
overflows the slice — a slice-bounds runtime error, modelled by `sliceMsg`;
when the scan simply fails to balance, the panic message quotes
`code[:pos]` with `pos` equal to the full length. -/
def nextChunk (code : Chars) : Except String Chars :=
  match code.findIdx? (· = '\n') with
  | none => .ok code
  | some i =>
    if i = 0 then .ok (code.take 1)
    else
      match findOpenParen (code.take i) with
      | none => .ok (code.take (i + 1))
      | some ploc =>
        let ch := code.getD ploc ' '
        let closech := if ch = '\x7b' then '\x7d' else ')'
        let rest := code.drop (i + 1)
        match scanClose ch closech rest 1 with
        | some j =>
          let pos := i + 1 + j + 1
          let pos' :=
            match findNlEnd (code.drop pos) with
            | some e => pos + e
            | none => pos
          .ok (code.take pos')
        | none =>
          if rest.isEmpty then .error (sliceMsg (2 * (i + 1)) (i + 1))
          else .error (mismatchedMsg code)

/-! ### Partitioning (`partition`, eval.go:220) -/

/-- eval.go:221: `^ *(func|type|import)` — spaces, then one of the three
keyword literals, as a plain prefix (no word boundary). -/
def globalDecl (chunk : Chars) : Bool :=
  let t := chunk.dropWhile (· = ' ')
  "func".data.isPrefixOf t || "type".data.isPrefixOf t || "import".data.isPrefixOf t

/-- The loop of eval.go:223 (fuel-driven; `|code| + 1` always suffices since
every chunk of a nonempty text is nonempty). -/
def partitionAux : Nat → Chars → Except String (Chars × Chars)
  | 0, _ => .error "out of fuel"
  | fuel + 1, code => do
    let chunk ← nextChunk code
    if chunk.isEmpty then pure ([], [])
    else do
      let (global, nonGlobal) ← partitionAux fuel (code.drop chunk.length)
      if globalDecl chunk then pure (chunk ++ global, nonGlobal)
      else pure (global, chunk ++ nonGlobal)

/-- eval.go:220. -/
def partition (code : Chars) : Except String (Chars × Chars) :=
  partitionAux (code.length + 1) code

/-- The chunk stream: the successive values of `nextChunk` at the running
offset, as drawn by `partition`'s loop. -/
def chunksAux : Nat → Chars → Except String (List Chars)
  | 0, _ => .error "out of fuel"
  | fuel + 1, code => do
    let chunk ← nextChunk code
    if chunk.isEmpty then pure []
    else do
      let l ← chunksAux fuel (code.drop chunk.length)
      pure (chunk :: l)

def chunks (code : Chars) : Except String (List Chars) :=
  chunksAux (code.length + 1) code

/-! ### `Eval` (eval.go:175) -/

/-- The body of `Eval` without the deferred `recover`: any panic of the
pipeline surfaces as `.error`. -/
def EvalE (runner : Runner) (code : Chars) : Except String (Chars × Chars) :=
  if packageDecl code then run runner code
  else do
    let code1 := expandAliases code
    let pkgsToImport := inferPackages code1
    let code2 ← embedLineNumbers code1
    let (global, nonGlobal) ← partition code2
    buildAndExec runner global nonGlobal pkgsToImport

/-- eval.go:175: the deferred `recover` turns any panic `e` into the result
`("", "1:" ++ e)`. -/
def Eval (runner : Runner) (code : Chars) : Chars × Chars :=
  match EvalE runner code with
  | .ok r => r
  | .error e => ([], '1' :: ':' :: e.data)

/-- Number of collaborator invocations performed by `Eval`. -/
def EvalCalls (runner : Runner) (code : Chars) : Nat :=
  if packageDecl code then 1
  else
    match embedLineNumbers (expandAliases code) with
    | .error _ => 0
    | .ok code2 =>
      match partition code2 with
      | .error _ => 0
      | .ok (global, nonGlobal) =>
        (buildAndExecT runner global nonGlobal (inferPackages (expandAliases code))).2

/-! ## General lemmas about the result slots -/

theorem errorBind {α β : Type} (e : String) (f : α → Except String β) :
    (Except.error e >>= f) = Except.error e := rfl

theorem okBind {α β : Type} (a : α) (f : α → Except String β) :
    (Except.ok a >>= f) = f a := rfl

theorem run_success {runner : Runner} {src o : Chars}
    (h : runner (extractLineNumbers src).1 = (o, true)) :
    run runner src = .ok (o, []) := by
  simp [run, h]

theorem run_failure {runner : Runner} {src o : Chars}
    (h : runner (extractLineNumbers src).1 = (o, false)) :
    run runner src =
      (remapCompileErrorLines o (extractLineNumbers src).2).bind (fun d => .ok ([], d)) := by
  simp only [run, h]
  rfl

theorem run_slots {runner : Runner} {src out err : Chars}
    (h : run runner src = .ok (out, err)) : out = [] ∨ err = [] := by
  rcases hr : runner (extractLineNumbers src).1 with ⟨o, b⟩
  cases b
  · rw [run_failure hr] at h
    cases hrem : remapCompileErrorLines o (extractLineNumbers src).2 with
    | error e => rw [hrem] at h; simp [Except.bind] at h
    | ok d =>
      rw [hrem] at h
      simp only [Except.bind, Except.ok.injEq, Prod.mk.injEq] at h
      exact Or.inl h.1.symm
  · rw [run_success hr] at h
    simp only [Except.ok.injEq, Prod.mk.injEq] at h
    exact Or.inr h.2.symm

theorem buildAndExec_slots {runner : Runner} {g ng : Chars} {pkgs : List String}
    {out err : Chars}
    (h : buildAndExec runner g ng pkgs = .ok (out, err)) : out = [] ∨ err = [] := by
  unfold buildAndExec at h
  rcases hbm : buildMain g ng pkgs with ⟨src, pkgs1⟩
  rw [hbm] at h
  dsimp only at h
  cases hrun : run runner src with
  | error e => rw [hrun, errorBind] at h; exact absurd h (by simp)
  | ok r =>
    rw [hrun, okBind] at h
    obtain ⟨o1, e1⟩ := r
    dsimp only at h
    by_cases he : e1 = []
    · subst he
      simp only [ne_eq, not_true_eq_false, if_false, reduceIte, pure, Except.pure,
        Except.ok.injEq, Prod.mk.injEq] at h
      exact Or.inr h.2.symm
    · simp only [ne_eq, he, not_false_eq_true, if_true, reduceIte] at h
      by_cases hd : (repairImports e1 pkgs1).1 = true
      · rw [if_pos hd] at h
        exact run_slots h
      · rw [if_neg hd] at h
        simp only [pure, Except.pure, Except.ok.injEq, Prod.mk.injEq] at h
        obtain ⟨h1, h2⟩ := h
        subst h1; subst h2
        exact run_slots hrun

theorem EvalE_slots {runner : Runner} {code out err : Chars}
    (h : EvalE runner code = .ok (out, err)) : out = [] ∨ err = [] := by
  unfold EvalE at h
  split at h
  · exact run_slots h
  · dsimp only at h
    cases hemb : embedLineNumbers (expandAliases code) with
    | error e => rw [hemb, errorBind] at h; exact absurd h (by simp)
    | ok code2 =>
      rw [hemb, okBind] at h
      cases hpart : partition code2 with
      | error e => rw [hpart, errorBind] at h; exact absurd h (by simp)
      | ok p =>
        rw [hpart, okBind] at h
        obtain ⟨g, ng⟩ := p
        exact buildAndExec_slots h

theorem Eval_slots (runner : Runner) (code : Chars) :
    (Eval runner code).1 = [] ∨ (Eval runner code).2 = [] := by
  unfold Eval
  cases he : EvalE runner code with
  | error e => exact Or.inl rfl
  | ok r => obtain ⟨o, d⟩ := r; exact EvalE_slots he

/-! ## C1 -/

/-- C1 (corrected): for every collaborator and fragment, at most one of the
two strings returned by `Eval` is non-empty — they are never both
populated; a successful collaborator invocation yields its output with an
empty diagnostic, and a failed one yields an empty output (with the
remapped diagnostic, or the internal-error panic).  The original claim's
"exactly one is non-empty" fails: a successful run of a program that prints
nothing returns both strings empty (see the counterexample). -/
theorem C1_result_slots (runner : Runner) (code : Chars) :
    ((Eval runner code).1 = [] ∨ (Eval runner code).2 = []) ∧
    (∀ src o, runner (extractLineNumbers src).1 = (o, true) →
      run runner src = .ok (o, [])) ∧
    (∀ src o, runner (extractLineNumbers src).1 = (o, false) →
      (∃ d, run runner src = .ok ([], d)) ∨ (∃ e, run runner src = .error e)) := by
  refine ⟨Eval_slots runner code, ?_, ?_⟩
  · intro src o h
    exact run_success h
  · intro src o h
    rw [run_failure h]
    cases hrem : remapCompileErrorLines o (extractLineNumbers src).2 with
    | error e => exact Or.inr ⟨e, rfl⟩
    | ok d => exact Or.inl ⟨d, rfl⟩

/-- C1, counterexample to the claim as stated: the collaborator succeeds on
the assembled program but the program prints nothing, so both returned
strings are empty — "exactly one of the two is non-empty" is violated. -/
theorem C1_counterexample :
    Eval (fun _ => ([], true)) "x := 1\n".data = ([], []) := rfl

/-- Witness for `C1_result_slots` at a concrete collaborator and input. -/
theorem C1_result_slots_witness :
    run (fun _ => ("hi".data, true)) "x\n".data = .ok ("hi".data, []) :=
  (C1_result_slots (fun _ => ("hi".data, true)) "x\n".data).2.1 "x\n".data "hi".data rfl

/-! ## C10 -/

/-- C10 (confirmed): `Eval` on the empty string does not propagate the panic:
`embedLineNumbers` indexes the last byte of its input, which is out of range
for the empty string; the deferred `recover` converts that panic into an
empty output and a non-empty diagnostic prefixed `1:`. -/
theorem C10_empty_input (runner : Runner) :
    Eval runner [] = ([], '1' :: ':' :: "runtime error: index out of range [-1]".data) ∧
    ('1' :: ':' :: "runtime error: index out of range [-1]".data : Chars) ≠ [] := by
  exact ⟨rfl, by simp⟩

/-! ## Splitting and joining lines -/

theorem intercalate_nl_single (x : Chars) : List.intercalate ['\n'] [x] = x := by
  simp [List.intercalate]

theorem intercalate_nl_cons (x y : Chars) (xs : List Chars) :
    List.intercalate ['\n'] (x :: y :: xs) = x ++ '\n' :: List.intercalate ['\n'] (y :: xs) := by
  simp [List.intercalate, List.intersperse_cons_cons]

theorem splitNl_ne_nil (s : Chars) : splitNl s ≠ [] := by
  cases s with
  | nil => simp [splitNl]
  | cons c t =>
    by_cases h : c = '\n'
    · simp [splitNl, h]
    · simp only [splitNl, h, if_false]
      cases splitNl t <;> simp

theorem splitNl_intercalate (s : Chars) : List.intercalate ['\n'] (splitNl s) = s := by
  induction s with
  | nil => simpa [splitNl] using intercalate_nl_single []
  | cons c t ih =>
    by_cases h : c = '\n'
    · subst h
      rw [show splitNl ('\n' :: t) = [] :: splitNl t from by simp [splitNl]]
      obtain ⟨y, ys, hy⟩ : ∃ y ys, splitNl t = y :: ys := by
        cases hs : splitNl t with
        | nil => exact absurd hs (splitNl_ne_nil t)
        | cons y ys => exact ⟨y, ys, rfl⟩
      rw [hy, intercalate_nl_cons]
      rw [hy] at ih
      simp [ih]
    · simp only [splitNl, h, if_false]
      cases hs : splitNl t with
      | nil => exact absurd hs (splitNl_ne_nil t)
      | cons y ys =>
        rw [hs] at ih
        cases ys with
        | nil =>
          rw [intercalate_nl_single]
          rw [intercalate_nl_single] at ih
          simp [ih]
        | cons z zs =>
          rw [intercalate_nl_cons] at ih ⊢
          simpa using ih

/-- A line without a marker is left untouched by stripping. -/
theorem stripMarker_of_none {line : Chars} (h : findMarker line = none) :
    stripMarker line = line := by
  simp [stripMarker, h]

/-- Marker-free text passes through `extractLineNumbers` unchanged. -/
theorem extract_text_of_no_marker {code : Chars}
    (h : ∀ line ∈ splitNl code, findMarker line = none) :
    (extractLineNumbers code).1 = code := by
  unfold extractLineNumbers
  have hmap : (splitNl code).map stripMarker = splitNl code :=
    List.map_congr_left (fun line hl => stripMarker_of_none (h line hl)) |>.trans (List.map_id _)
  simp only [hmap]
  exact splitNl_intercalate code

/-! ## C8 -/

/-- C8 (corrected): a fragment beginning (after spaces) with a package
declaration bypasses the pipeline — `EvalE` is exactly `run` on the
fragment, so no alias expansion, import inference, marker embedding,
partitioning or assembly happens — but `run` itself strips end-of-line
`//#digits` markers before handing the text to the build collaborator, so
the handed text is the fragment with such markers removed, which equals the
fragment exactly when no line of the fragment ends in a marker. -/
theorem C8_passthrough (runner : Runner) (code : Chars) (h : packageDecl code = true) :
    EvalE runner code = run runner code ∧
    (runT runner code).2 = [(extractLineNumbers code).1] ∧
    ((∀ line ∈ splitNl code, findMarker line = none) → (extractLineNumbers code).1 = code) := by
  refine ⟨by simp [EvalE, h], rfl, fun hnm => extract_text_of_no_marker hnm⟩

/-- C8, counterexample to the claim as stated: on a package-declared fragment
containing a `//#1` line ending, the text handed to the collaborator (made
observable by an echoing collaborator) is the fragment with the marker
stripped, not the fragment itself. -/
theorem C8_counterexample :
    Eval (fun s => (s, true)) " package main//#1\n".data = (" package main\n".data, []) ∧
    (" package main\n".data : Chars) ≠ " package main//#1\n".data :=
  ⟨rfl, by decide⟩

/-- Witness for `C8_passthrough` on a concrete marker-free fragment. -/
theorem C8_passthrough_witness :
    (extractLineNumbers "package main\n".data).1 = "package main\n".data :=
  (C8_passthrough (fun s => (s, true)) "package main\n".data (by decide)).2.2 (by decide)

/-! ## C5 -/

/-- C5 (corrected): `remapCompileErrorLines` splits the diagnostic at
newlines and handles each line in order as follows.  Empty lines and banner
lines are dropped.  A line whose earliest colon is followed by one or more
digits and a second colon is rewritten to the mapped original line number,
a colon, and the text after the second colon — the path before the first
colon is dropped, and a synthesized number with no map entry is rewritten
with line number 0, not passed through unchanged; a number beyond 64-bit
int aborts the call (the `Atoi` panic).  All other lines pass through
(newline-terminated). -/
theorem C5_remap (err : Chars) (m : List (Nat × Nat)) (line : Chars) (rest : List Chars) :
    remapCompileErrorLines err m = remapLines m (splitNl err) ∧
    remapLines m [] = .ok [] ∧
    (line.isEmpty || bannerPrefix.isPrefixOf line = true →
      remapLines m (line :: rest) = remapLines m rest) ∧
    (line.isEmpty = false → bannerPrefix.isPrefixOf line = false →
      findColonNum line = none →
      remapLines m (line :: rest) = (remapLines m rest).map (fun t => line ++ '\n' :: t)) ∧
    (∀ ds r, line.isEmpty = false → bannerPrefix.isPrefixOf line = false →
      findColonNum line = some (ds, r) → digitsToNat ds ≤ int64Max →
      remapLines m (line :: rest) = (remapLines m rest).map
        (fun t => natDigits (lookupZero m (digitsToNat ds)) ++ ':' :: r ++ '\n' :: t)) ∧
    (∀ ds r, line.isEmpty = false → bannerPrefix.isPrefixOf line = false →
      findColonNum line = some (ds, r) → digitsToNat ds > int64Max →
      remapLines m (line :: rest) =
        .error ("Internal error: Unable to convert " ++ String.mk ds)) ∧
    (∀ k, m.lookup k = none → lookupZero m k = 0) := by
  refine ⟨rfl, rfl, ?_, ?_, ?_, ?_, ?_⟩
  · intro h
    simp only [remapLines]
    rw [if_pos (by simpa using h)]
  · intro h1 h2 h3
    simp only [remapLines, h1, h2, Bool.or_self, if_false, Bool.false_eq_true]
    simp only [remapLine, h3]
    cases hrest : remapLines m rest with
    | error e => rfl
    | ok t => simp [okBind, Except.map, pure, Except.pure]
  · intro ds r h1 h2 h3 h4
    simp only [remapLines]
    rw [if_neg (by simp [h1, h2])]
    simp only [remapLine, h3]
    rw [if_neg (by omega)]
    cases hrest : remapLines m rest with
    | error e => rfl
    | ok t => simp [okBind, Except.map, pure, Except.pure]
  · intro ds r h1 h2 h3 h4
    simp only [remapLines]
    rw [if_neg (by simp [h1, h2])]
    simp only [remapLine, h3]
    rw [if_pos (by omega)]
    rfl
  · intro k hk
    simp [lookupZero, hk]

/-- C5, counterexample to the claim as stated: a diagnostic line whose
synthesized line number (7) has no entry in the map does not pass through
unchanged — it is rewritten with line number 0 and its path dropped. -/
theorem C5_counterexample :
    remapCompileErrorLines "x.go:7: boom\n".data [(5, 2)] = .ok "0: boom\n".data ∧
    ("0: boom\n".data : Chars) ≠ "x.go:7: boom\n".data :=
  ⟨rfl, by decide⟩

/-- Witness for `C5_remap`: a mapped line is rewritten with the original
number. -/
theorem C5_remap_witness :
    remapLines [(5, 2)] ("x.go:5: boom".data :: []) =
      (remapLines [(5, 2)] []).map
        (fun t => natDigits (lookupZero [(5, 2)] (digitsToNat "5".data)) ++ ':' ::
          " boom".data ++ '\n' :: t) :=
  (C5_remap [] [(5, 2)] "x.go:5: boom".data []).2.2.2.2.1 "5".data " boom".data
    (by decide) (by decide) (by decide) (by decide)

/-! ## Chunk-stream lemmas (for C2 and C7) -/

/-- Every successful chunk is a prefix of its input. -/
theorem nextChunk_prefix {code c : Chars} (h : nextChunk code = .ok c) :
    c = code.take c.length := by
  simp only [nextChunk] at h
  repeat' split at h
  all_goals cases h
  all_goals simp

/-- Every successful chunk of a nonempty input is nonempty. -/
theorem nextChunk_ne_nil {code c : Chars} (h : nextChunk code = .ok c) (hc : code ≠ []) :
    c ≠ [] := by
  simp only [nextChunk] at h
  repeat' split at h
  all_goals cases h
  all_goals first
    | exact hc
    | simp [List.take_eq_nil_iff, hc]

/-- An empty chunk only arises at the end of input. -/
theorem nextChunk_nil_of {code c : Chars} (h : nextChunk code = .ok c) (hc : c = []) :
    code = [] := by
  by_cases hcode : code = []
  · exact hcode
  · exact absurd hc (nextChunk_ne_nil h hcode)

theorem chunksAux_flatten : ∀ (fuel : Nat) (code : Chars), code.length < fuel →
    ∀ l, chunksAux fuel code = .ok l → l.flatten = code := by
  intro fuel
  induction fuel with
  | zero => intro code h; omega
  | succ fuel ih =>
    intro code hlen l h
    simp only [chunksAux] at h
    cases hnc : nextChunk code with
    | error e => rw [hnc, errorBind] at h; cases h
    | ok c =>
      rw [hnc, okBind] at h
      by_cases hce : c = []
      · subst hce
        simp only [List.isEmpty_nil, if_true, reduceIte, pure, Except.pure,
          Except.ok.injEq] at h
        subst h
        simp [nextChunk_nil_of hnc rfl]
      · have hcode : code ≠ [] := fun hc => hce (by rw [hc] at hnc; cases hnc; rfl)
        rw [if_neg (by simpa using hce)] at h
        cases hrec : chunksAux fuel (code.drop c.length) with
        | error e => rw [hrec, errorBind] at h; cases h
        | ok l2 =>
          rw [hrec, okBind] at h
          simp only [pure, Except.pure, Except.ok.injEq] at h
          subst h
          have hpre := nextChunk_prefix hnc
          have hc1 : 1 ≤ c.length := by
            cases hc : c with
            | nil => exact absurd hc hce
            | cons a t => simp
          have hclen : c.length ≤ code.length := by
            have := congrArg List.length hpre
            simp [List.length_take] at this
            omega
          have hdrop : (code.drop c.length).length < fuel := by
            simp only [List.length_drop]
            have : code.length ≠ 0 := by
              cases code with
              | nil => exact absurd rfl hcode
              | cons a t => simp
            omega
          have hrecf := ih (code.drop c.length) hdrop l2 hrec
          simp only [List.flatten_cons, hrecf]
          conv_rhs => rw [← List.take_append_drop c.length code]
          rw [← hpre]

theorem partitionAux_eq_chunksAux : ∀ (fuel : Nat) (code : Chars), code.length < fuel →
    partitionAux fuel code = (chunksAux fuel code).map (fun l =>
      ((l.filter globalDecl).flatten, (l.filter (fun c => !globalDecl c)).flatten)) := by
  intro fuel
  induction fuel with
  | zero => intro code h; omega
  | succ fuel ih =>
    intro code hlen
    simp only [partitionAux, chunksAux]
    cases hnc : nextChunk code with
    | error e => rw [errorBind, errorBind]; rfl
    | ok c =>
      rw [okBind, okBind]
      by_cases hce : c = []
      · subst hce
        simp [pure, Except.pure, Except.map]
      · have hcode : code ≠ [] := fun hc => hce (by rw [hc] at hnc; cases hnc; rfl)
        rw [if_neg (by simpa using hce), if_neg (by simpa using hce)]
        have hpre := nextChunk_prefix hnc
        have hclen : c.length ≤ code.length := by
          have := congrArg List.length hpre
          simp [List.length_take] at this
          omega
        have hdrop : (code.drop c.length).length < fuel := by
          simp only [List.length_drop]
          have h0 : code.length ≠ 0 := by
            cases code with
            | nil => exact absurd rfl hcode
            | cons a t => simp
          have hc1 : 1 ≤ c.length := by
            cases hc : c with
            | nil => exact absurd hc hce
            | cons a t => simp
          omega
        rw [ih (code.drop c.length) hdrop]
        cases hrec : chunksAux fuel (code.drop c.length) with
        | error e => rfl
        | ok l2 =>
          simp only [Except.map, okBind]
          by_cases hg : globalDecl c
          · simp [hg, List.filter_cons, pure, Except.pure]
          · simp [hg, List.filter_cons, pure, Except.pure]

theorem filter_flatten_length (p : Chars → Bool) : ∀ (l : List Chars),
    ((l.filter p).flatten).length + ((l.filter (fun x => !p x)).flatten).length
      = l.flatten.length := by
  intro l
  induction l with
  | nil => simp
  | cons c t ih =>
    by_cases hp : p c <;> simp [List.filter_cons, hp] at ih ⊢ <;> omega

/-! ## C2 -/

/-- C2 (confirmed): whenever the chunk stream drawn by repeatedly taking
`nextChunk` and advancing by the chunk's length completes without a
bracket-mismatch panic (in particular for every bracket-balanced
marker-embedded fragment), the in-order concatenation of the chunks is
exactly the input; and whenever `partition` completes, the combined length
of its global and non-global outputs equals the length of the input. -/
theorem C2_reconstruction (code : Chars) :
    (∀ l, chunks code = .ok l → l.flatten = code) ∧
    (∀ g ng, partition code = .ok (g, ng) → g.length + ng.length = code.length) := by
  constructor
  · intro l h
    exact chunksAux_flatten (code.length + 1) code (Nat.lt_succ_self _) l h
  · intro g ng h
    rw [partition, partitionAux_eq_chunksAux (code.length + 1) code (Nat.lt_succ_self _)] at h
    cases hc : chunksAux (code.length + 1) code with
    | error e => rw [hc] at h; cases h
    | ok l =>
      rw [hc] at h
      simp only [Except.map, Except.ok.injEq, Prod.mk.injEq] at h
      obtain ⟨hg, hng⟩ := h
      subst hg; subst hng
      rw [filter_flatten_length globalDecl l,
        chunksAux_flatten (code.length + 1) code (Nat.lt_succ_self _) l hc]

/-- Witness for `C2_reconstruction` at a concrete two-chunk fragment. -/
theorem C2_reconstruction_witness :
    (["type A int//#1\n".data, "x//#2\n".data] : List Chars).flatten
        = "type A int//#1\nx//#2\n".data ∧
      ("type A int//#1\n".data : Chars).length + ("x//#2\n".data : Chars).length
        = ("type A int//#1\nx//#2\n".data : Chars).length :=
  ⟨(C2_reconstruction "type A int//#1\nx//#2\n".data).1
      ["type A int//#1\n".data, "x//#2\n".data] rfl,
   (C2_reconstruction "type A int//#1\nx//#2\n".data).2
      "type A int//#1\n".data "x//#2\n".data rfl⟩

/-! ## C7 -/

/-- C7 (corrected): `partition` sends a chunk to the global (declaration)
output iff the chunk, after discarding leading spaces (spaces only — a
leading tab defeats the test), begins with the literal characters `func`,
`type` or `import` — a plain prefix test, not a token test, so an
identifier such as `functional` is also classified as a declaration.
Within each output, chunks keep their relative order (each output is the
in-order concatenation of its chunks). -/
theorem C7_partition_classes (code : Chars) :
    (∀ l, chunks code = .ok l →
      partition code = .ok ((l.filter globalDecl).flatten,
        (l.filter (fun c => !globalDecl c)).flatten)) ∧
    (∀ c : Chars, globalDecl c =
      ("func".data.isPrefixOf (c.dropWhile (· = ' ')) ||
       "type".data.isPrefixOf (c.dropWhile (· = ' ')) ||
       "import".data.isPrefixOf (c.dropWhile (· = ' ')))) := by
  constructor
  · intro l h
    rw [partition, partitionAux_eq_chunksAux (code.length + 1) code (Nat.lt_succ_self _)]
    rw [chunks] at h
    rw [h]
    rfl
  · intro c
    rfl

/-- C7, counterexample to the claim as stated: the chunk `functional//#1`
has first non-blank token `functional`, not one of the keywords, yet it is
placed in the global (declaration) output and the statement output stays
empty. -/
theorem C7_counterexample :
    partition "functional//#1\n".data = .ok ("functional//#1\n".data, []) := rfl

/-- Witness for `C7_partition_classes` at a concrete mixed fragment. -/
theorem C7_partition_classes_witness :
    partition "type A int//#1\nx//#2\n".data =
      .ok (([ "type A int//#1\n".data, "x//#2\n".data ].filter globalDecl).flatten,
        ([ "type A int//#1\n".data, "x//#2\n".data ].filter
          (fun c => !globalDecl c)).flatten) :=
  (C7_partition_classes "type A int//#1\nx//#2\n".data).1
    ["type A int//#1\n".data, "x//#2\n".data] rfl

/-! ## Import repair lemmas (for C3) -/

theorem repairFold_true (caps : List String) : ∀ (s : List String),
    ((caps.foldl (fun st pkg => if st.2.contains pkg then (true, st.2.erase pkg) else st)
      (true, s))).1 = true := by
  induction caps with
  | nil => intro s; rfl
  | cons c caps ih =>
    intro s
    simp only [List.foldl_cons]
    by_cases hc : s.contains c
    · rw [if_pos hc]; exact ih _
    · rw [if_neg hc]; exact ih _

theorem repairFold_flag (caps : List String) : ∀ (pkgs : List String),
    ((caps.foldl (fun st pkg => if st.2.contains pkg then (true, st.2.erase pkg) else st)
      (false, pkgs))).1 = caps.any (fun c => pkgs.contains c) := by
  induction caps with
  | nil => intro pkgs; rfl
  | cons c caps ih =>
    intro pkgs
    simp only [List.foldl_cons, List.any_cons]
    by_cases hc : pkgs.contains c
    · rw [if_pos hc, hc, repairFold_true caps _]
      simp
    · have hc' : pkgs.contains c = false := by simpa using hc
      rw [if_neg hc, hc', ih]
      simp

theorem repairFold_set (caps : List String) : ∀ (pkgs : List String) (b : Bool),
    pkgs.Nodup →
    ((caps.foldl (fun st pkg => if st.2.contains pkg then (true, st.2.erase pkg) else st)
      (b, pkgs))).2 = pkgs.filter (fun p => !caps.contains p) := by
  induction caps with
  | nil => intro pkgs b h; simp
  | cons c caps ih =>
    intro pkgs b h
    simp only [List.foldl_cons]
    by_cases hc : pkgs.contains c
    · rw [if_pos hc]
      rw [ih _ _ (h.erase c)]
      rw [List.Nodup.erase_eq_filter h c, List.filter_filter]
      apply List.filter_congr
      intro p hp
      cases hb : (p == c) <;> simp [hb] <;> simp at hb <;> simp [hb]
    · rw [if_neg hc]
      rw [ih _ _ h]
      apply List.filter_congr
      intro p hp
      have hpc : (p == c) = false := by
        by_contra hx
        simp at hx
        subst hx
        simp at hc
        exact hc hp
      simp [hpc]
      simp at hpc
      simp [hpc]

theorem repairImports_flag {err : Chars} {pkgs : List String} :
    (repairImports err pkgs).1 = (capturedPkgs err).any (fun c => pkgs.contains c) :=
  repairFold_flag (capturedPkgs err) pkgs

theorem repairImports_set {err : Chars} {pkgs : List String} (h : pkgs.Nodup) :
    (repairImports err pkgs).2 = pkgs.filter (fun p => !(capturedPkgs err).contains p) :=
  repairFold_set (capturedPkgs err) pkgs false h

/-! ## C3 -/

/-- C3 (confirmed): an import path is removed from the import set by the
repair step iff it is one of the identifiers captured by the diagnostic
patterns `… redeclared as imported package name` / `imported and not used:
"…"` and is currently a member of the set (nothing is ever added); the
repair flag is set iff some captured identifier is a member; when the first
build fails and the repair flag is set, exactly one rebuild happens (two
collaborator invocations), and in every case the collaborator is invoked at
most twice. -/
theorem C3_import_repair (runner : Runner) (g ng err : Chars)
    (pkgs : List String) (hnd : pkgs.Nodup) :
    ((repairImports err pkgs).1 = true ↔ ∃ p ∈ capturedPkgs err, p ∈ pkgs) ∧
    (∀ p, p ∈ pkgs → (p ∉ (repairImports err pkgs).2 ↔ p ∈ capturedPkgs err)) ∧
    (∀ p, p ∉ pkgs → p ∉ (repairImports err pkgs).2) ∧
    (buildAndExecT runner g ng pkgs).2 ≤ 2 ∧
    (∀ out d, run runner (buildMain g ng pkgs).1 = .ok (out, d) → d ≠ [] →
      (repairImports d (buildMain g ng pkgs).2).1 = true →
      (buildAndExecT runner g ng pkgs).2 = 2) ∧
    buildAndExec runner g ng pkgs = (buildAndExecT runner g ng pkgs).1 := by
  have hnd1 : (pkgs.erase "fmt").Nodup := hnd.erase "fmt"
  refine ⟨?_, ?_, ?_, ?_, ?_, ?_⟩
  · rw [repairImports_flag]
    simp
  · intro p hp
    rw [repairImports_set hnd]
    simp [hp]
  · intro p hp
    rw [repairImports_set hnd]
    simp [hp]
  · unfold buildAndExecT
    rcases hbm : buildMain g ng pkgs with ⟨src, pkgs1⟩
    dsimp only
    cases hrun : run runner src with
    | error e => simp
    | ok r =>
      obtain ⟨o1, e1⟩ := r
      dsimp only
      by_cases he : e1 = []
      · simp [he]
      · simp only [ne_eq, he, not_false_eq_true, if_true, reduceIte]
        by_cases hflag : (repairImports e1 pkgs1).1 = true
        · simp [hflag]
        · simp [hflag]
  · intro out d hrun hd hflag
    unfold buildAndExecT
    rcases hbm : buildMain g ng pkgs with ⟨src, pkgs1⟩
    rw [hbm] at hrun hflag
    dsimp only at hrun hflag ⊢
    rw [hrun]
    dsimp only
    rw [if_pos hd, if_pos hflag]
  · unfold buildAndExec buildAndExecT
    rcases hbm : buildMain g ng pkgs with ⟨src, pkgs1⟩
    dsimp only
    cases hrun : run runner src with
    | error e => rw [errorBind]
    | ok r =>
      rw [okBind]
      obtain ⟨o1, e1⟩ := r
      dsimp only
      by_cases he : e1 = []
      · simp [he, pure, Except.pure]
      · simp only [ne_eq, he, not_false_eq_true, if_true, reduceIte]
        by_cases hflag : (repairImports e1 pkgs1).1 = true
        · simp only [hflag, if_true, reduceIte]
        · simp only [hflag, if_false, Bool.false_eq_true, reduceIte]
          rfl

/-- Witness for `C3_import_repair`: on a diagnostic naming `strings` as
redeclared, the member `strings` is removed from the set. -/
theorem C3_import_repair_witness :
    "strings" ∉ (repairImports
      "x.go:1: strings redeclared as imported package name\n".data ["strings", "os"]).2 :=
  ((C3_import_repair (fun _ => ([], true)) [] []
      "x.go:1: strings redeclared as imported package name\n".data ["strings", "os"]
      (by decide)).2.1 "strings" (by decide)).mpr (by decide)

/-! ## C9 -/

/-- C9 (corrected): when the chunk scan itself fails — the opener at the end
of a scanned line is never balanced during the bracket count — the panic is
caught by `Eval`'s recover and surfaced as an empty output with the
non-empty diagnostic `1:` followed by the panic text, and the build
collaborator is never invoked (no retry).  This covers exactly the
fragments whose pipeline run reaches a mismatched opener; an unbalanced
opener swallowed inside an earlier block of the other bracket type is not
detected (see the counterexample). -/
theorem C9_structural (runner : Runner) (code code2 : Chars) (e : String)
    (hpd : packageDecl code = false)
    (hemb : embedLineNumbers (expandAliases code) = .ok code2)
    (hpart : partition code2 = .error e) :
    Eval runner code = ([], '1' :: ':' :: e.data) ∧
    ('1' :: ':' :: e.data : Chars) ≠ [] ∧
    EvalCalls runner code = 0 := by
  refine ⟨?_, by simp, ?_⟩
  · unfold Eval EvalE
    rw [hpd, if_neg (by simp)]
    dsimp only
    rw [hemb, okBind, hpart, errorBind]
  · unfold EvalCalls
    rw [hpd, if_neg (by simp), hemb]
    dsimp only
    rw [hpart]

/-- C9, counterexample to the claim as stated: the fragment
`x := f(\ny := g{\n)\n` contains the line `y := g{`, which ends with an
opening `{` that is never closed anywhere in the text; yet the chunk scan
swallows that line inside the balanced `(`-block started on line 1, no
mismatched-brackets error is raised, and with a succeeding collaborator
`Eval` returns output `ok` with an empty diagnostic instead of the claimed
empty output and non-empty structural diagnostic. -/
theorem C9_counterexample :
    Eval (fun _ => ("ok".data, true)) "x := f(\ny := g\x7b\n)\n".data = ("ok".data, []) ∧
    ('\x7d' ∉ ("x := f(\ny := g\x7b\n)\n".data : Chars)) ∧
    "y := g\x7b".data ∈ splitNl "x := f(\ny := g\x7b\n)\n".data :=
  ⟨rfl, by decide, by decide⟩

/-- Witness for `C9_structural` on a fragment whose opener line is scanned
and never balanced. -/
theorem C9_structural_witness :
    Eval (fun _ => ([], true)) "f(\nx\n".data =
      ([], '1' :: ':' ::
        "Mismatched parentheses or brackets:f(//#1\nx//#2\n".data) ∧
    EvalCalls (fun _ => ([], true)) "f(\nx\n".data = 0 :=
  ⟨(C9_structural (fun _ => ([], true)) "f(\nx\n".data "f(//#1\nx//#2\n".data
      "Mismatched parentheses or brackets:f(//#1\nx//#2\n" (by decide) rfl rfl).1,
   (C9_structural (fun _ => ([], true)) "f(\nx\n".data "f(//#1\nx//#2\n".data
      "Mismatched parentheses or brackets:f(//#1\nx//#2\n" (by decide) rfl rfl).2.2⟩

/-! ## Import-inference lemmas (for C6) -/

theorem findPkgsAux_capzero (fuel : Nat) (s : Chars) : findPkgsAux fuel 0 s = [] := by
  cases fuel with
  | zero => cases s <;> rfl
  | succ fuel => cases s with
    | nil => rfl
    | cons c t => simp [findPkgsAux]

theorem findPkgsAll_nil (fuel : Nat) : findPkgsAll fuel [] = [] := by
  cases fuel <;> rfl

/-- The cap of `FindAllString(chunk, 100000)` is irrelevant whenever the
total number of matches stays within it. -/
theorem findPkgsAux_of_le : ∀ (fuel : Nat) (s : Chars) (cap : Nat),
    (findPkgsAll fuel s).length ≤ cap → findPkgsAux fuel cap s = findPkgsAll fuel s := by
  intro fuel
  induction fuel with
  | zero => intro s cap h; cases s <;> rfl
  | succ fuel ih =>
    intro s cap h
    cases s with
    | nil => rfl
    | cons c t =>
      simp only [findPkgsAll] at h ⊢
      cases hm : matchPkgAt (c :: t) with
      | some len =>
        rw [hm] at h
        simp only [List.length_cons] at h
        have hcap0 : ¬ cap = 0 := by omega
        simp only [findPkgsAux, hm]
        rw [if_neg hcap0]
        congr 1
        have : cap - 1 + 1 = cap := by omega
        exact ih _ _ (by omega)
      | none =>
        rw [hm] at h
        by_cases hc : cap = 0
        · subst hc
          have hnil : findPkgsAll fuel t = [] := by
            cases hx : findPkgsAll fuel t with
            | nil => rfl
            | cons a l => rw [hx] at h; simp at h
          rw [hnil, findPkgsAux_capzero]
        · simp only [findPkgsAux, hm]
          rw [if_neg hc]
          exact ih _ _ h

/-- Membership in the import set built by the inference fold. -/
theorem setInsert_mem (acc : List String) (q p : String) :
    p ∈ setInsert acc q ↔ p ∈ acc ∨ p = q := by
  by_cases h : acc.contains q
  · have hq : q ∈ acc := by simpa using h
    simp only [setInsert, h, if_true, reduceIte]
    constructor
    · exact Or.inl
    · rintro (hp | rfl)
      · exact hp
      · exact hq
  · unfold setInsert
    rw [if_neg h]
    simp

theorem inferFold_mem : ∀ (ms : List Chars) (acc : List String) (p : String),
    (p ∈ ms.foldl (fun acc m =>
      match builtinPkgs.lookup (String.mk m.dropLast) with
      | some importPkg => setInsert acc importPkg
      | none => acc) acc) ↔
    p ∈ acc ∨ p ∈ ms.filterMap (fun m => builtinPkgs.lookup (String.mk m.dropLast)) := by
  intro ms
  induction ms with
  | nil => intro acc p; simp
  | cons m ms ih =>
    intro acc p
    simp only [List.foldl_cons, List.filterMap_cons]
    cases hl : builtinPkgs.lookup (String.mk m.dropLast) with
    | none => rw [ih]
    | some q =>
      rw [ih, setInsert_mem]
      simp only [List.mem_cons]
      constructor
      · rintro ((hp | rfl) | hp)
        · exact Or.inl hp
        · exact Or.inr (Or.inl rfl)
        · exact Or.inr (Or.inr hp)
      · rintro (hp | rfl | hp)
        · exact Or.inl (Or.inl hp)
        · exact Or.inl (Or.inr rfl)
        · exact Or.inr hp

/-! ## C6 -/

/-- C6 (corrected): as long as the qualified-token matcher finds at most
100000 matches — the cap of the source's `FindAllString(chunk, 100000)` —
`inferPackages` returns exactly the set of canonical import paths obtained
by matching every `[a-z]\w+.` token, stripping the dot and looking the
short name up in the static registry, unregistered short names contributing
nothing; and a fragment containing `fmt.Println("hi")` yields a set
containing `fmt`.  Beyond 100000 matches the cap makes later tokens
invisible (see the counterexample), so the unrestricted claim fails. -/
theorem C6_infer (chunk : Chars)
    (hcap : (findPkgsAll (chunk.length + 1) chunk).length ≤ 100000) :
    (∀ p, p ∈ inferPackages chunk ↔ p ∈ inferredPathsSpec chunk) ∧
    "fmt" ∈ inferPackages "fmt.Println(\"hi\")".data := by
  constructor
  · intro p
    unfold inferPackages inferredPathsSpec
    rw [findPkgsAux_of_le _ _ _ hcap, inferFold_mem]
    simp
  · decide

/-- The 3-character unregistered token `ab.`. -/
def abDotTok : Chars := 'a' :: 'b' :: '.' :: []

/-- The registered token `fmt.`. -/
def fmtDotTok : Chars := 'f' :: 'm' :: 't' :: '.' :: []

/-- 100000 unregistered qualified tokens followed by a `fmt.` token: the
`FindAllString` cap is exhausted before the `fmt.` match. -/
def capBuster : Chars := (List.replicate 100000 abDotTok).flatten ++ fmtDotTok

theorem matchPkgAt_abDot (t : Chars) : matchPkgAt ('a' :: 'b' :: '.' :: t) = some 3 := rfl

theorem findPkgsAux_replicate : ∀ (n cap fuel : Nat) (rest : Chars),
    n + rest.length + 1 ≤ fuel → cap ≤ n →
    findPkgsAux fuel cap ((List.replicate n abDotTok).flatten ++ rest)
      = List.replicate cap abDotTok := by
  intro n
  induction n with
  | zero =>
    intro cap fuel rest hf hc
    have hc0 : cap = 0 := by omega
    subst hc0
    rw [findPkgsAux_capzero]
    rfl
  | succ n ih =>
    intro cap fuel rest hf hc
    cases hcap : cap with
    | zero => rw [findPkgsAux_capzero]; rfl
    | succ k =>
      cases fuel with
      | zero => omega
      | succ f =>
        have hs : (List.replicate (n + 1) abDotTok).flatten ++ rest
            = 'a' :: 'b' :: '.' :: ((List.replicate n abDotTok).flatten ++ rest) := by
          simp [List.replicate_succ, abDotTok]
        rw [hs]
        simp only [findPkgsAux, matchPkgAt_abDot, Nat.succ_ne_zero, if_neg, reduceIte]
        have htake : List.take 3 ('a' :: 'b' :: '.' ::
            ((List.replicate n abDotTok).flatten ++ rest)) = abDotTok := rfl
        have hdrop : List.drop 3 ('a' :: 'b' :: '.' ::
            ((List.replicate n abDotTok).flatten ++ rest))
            = (List.replicate n abDotTok).flatten ++ rest := rfl
        rw [htake, hdrop, show k + 1 - 1 = k from rfl,
          ih k f rest (by omega) (by omega)]
        rfl

theorem findPkgsAll_replicate : ∀ (n fuel : Nat) (rest : Chars),
    n + rest.length + 1 ≤ fuel →
    findPkgsAll fuel ((List.replicate n abDotTok).flatten ++ rest)
      = List.replicate n abDotTok ++ findPkgsAll (fuel - n) rest := by
  intro n
  induction n with
  | zero => intro fuel rest hf; simp
  | succ n ih =>
    intro fuel rest hf
    cases fuel with
    | zero => omega
    | succ f =>
      have hs : (List.replicate (n + 1) abDotTok).flatten ++ rest
          = 'a' :: 'b' :: '.' :: ((List.replicate n abDotTok).flatten ++ rest) := by
        simp [List.replicate_succ, abDotTok]
      rw [hs]
      simp only [findPkgsAll, matchPkgAt_abDot]
      have htake : List.take 3 ('a' :: 'b' :: '.' ::
          ((List.replicate n abDotTok).flatten ++ rest)) = abDotTok := rfl
      have hdrop : List.drop 3 ('a' :: 'b' :: '.' ::
          ((List.replicate n abDotTok).flatten ++ rest))
          = (List.replicate n abDotTok).flatten ++ rest := rfl
      rw [htake, hdrop, ih f rest (by omega)]
      have hsub : f - n = f + 1 - (n + 1) := by omega
      rw [← hsub]
      rfl

theorem lookup_abDot : builtinPkgs.lookup (String.mk abDotTok.dropLast) = none := by decide

theorem inferFold_abDot : ∀ (k : Nat) (acc : List String),
    (List.replicate k abDotTok).foldl (fun acc m =>
      match builtinPkgs.lookup (String.mk m.dropLast) with
      | some importPkg => setInsert acc importPkg
      | none => acc) acc = acc := by
  intro k
  induction k with
  | zero => intro acc; rfl
  | succ k ih =>
    intro acc
    rw [List.replicate_succ, List.foldl_cons, lookup_abDot]
    exact ih acc

theorem filterMap_abDot (k : Nat) :
    (List.replicate k abDotTok).filterMap
      (fun m => builtinPkgs.lookup (String.mk m.dropLast)) = [] := by
  induction k with
  | zero => rfl
  | succ k ih => rw [List.replicate_succ, List.filterMap_cons, lookup_abDot, ih]

/-- C6, counterexample to the claim as stated: on a fragment with 100000
unregistered `ab.` tokens followed by `fmt.Println`-style usage of `fmt`,
the capped scan exhausts its 100000 matches before reaching `fmt.`, so the
computed import set is empty although matching every token yields the
canonical path of `fmt`. -/
theorem C6_counterexample :
    inferPackages capBuster = [] ∧ "fmt" ∈ inferredPathsSpec capBuster := by
  have hlen : ((List.replicate 100000 abDotTok).flatten ++ fmtDotTok).length = 300004 := by
    have h1 : ((List.replicate 100000 abDotTok).flatten).length = 100000 * 3 := by
      rw [List.length_flatten, List.map_replicate, show abDotTok.length = 3 from rfl]
      exact List.sum_const_nat 100000 3
    rw [List.length_append, h1, show fmtDotTok.length = 4 from rfl]
  constructor
  · unfold inferPackages capBuster
    rw [hlen]
    rw [findPkgsAux_replicate 100000 100000 (300004 + 1) fmtDotTok
      (by simp [fmtDotTok]) (le_refl _)]
    exact inferFold_abDot 100000 []
  · unfold inferredPathsSpec capBuster
    rw [hlen]
    rw [findPkgsAll_replicate 100000 (300004 + 1) fmtDotTok (by simp [fmtDotTok])]
    rw [List.filterMap_append, filterMap_abDot]
    rw [show (300004 + 1) - 100000 = 200005 from rfl]
    decide

/-- Witness for `C6_infer` on a small fragment. -/
theorem C6_infer_witness :
    (("fmt" ∈ inferPackages "fmt.Printf(x)".data) ↔
      ("fmt" ∈ inferredPathsSpec "fmt.Printf(x)".data)) ∧
    "fmt" ∈ inferPackages "fmt.Println(\"hi\")".data :=
  ⟨(C6_infer "fmt.Printf(x)".data (by decide)).1 "fmt",
   (C6_infer "fmt.Printf(x)".data (by decide)).2⟩

/-! ## Line-marker lemmas (for C4) -/

theorem marker_not_newline (k : Nat) : ('\n' : Char) ∉ marker k := by
  intro h
  simp only [marker, List.mem_cons] at h
  rcases h with h | h | h | h
  · exact absurd h (by decide)
  · exact absurd h (by decide)
  · exact absurd h (by decide)
  · have hd := List.all_eq_true.mp (natDigits_all_digit k) _ h
    exact isDigitChar_ne_newline hd rfl

theorem isMarkerFrom_marker (k : Nat) : isMarkerFrom (marker k) = true := by
  have h2 := natDigits_all_digit k
  cases hnd : natDigits k with
  | nil => exact absurd hnd (natDigits_ne_nil k)
  | cons d ds =>
    rw [hnd] at h2
    simp [isMarkerFrom, marker, hnd, h2]

theorem isMarkerFrom_append_false : ∀ {t : Chars}, t ≠ [] → ∀ (k : Nat),
    isMarkerFrom (t ++ marker k) = false := by
  intro t ht k
  match t, ht with
  | [a], _ => simp [isMarkerFrom, marker]
  | [a, b], _ => simp [isMarkerFrom, marker]
  | a :: b :: c :: t', _ =>
    have hall : ((t' ++ marker k).all isDigitChar) = false := by
      rw [List.all_append]
      have : (marker k).all isDigitChar = false := by simp [marker, isDigitChar]
      simp [this]
    simp [isMarkerFrom, hall]

theorem findMarker_append_marker (line : Chars) (k : Nat) :
    findMarker (line ++ marker k) = some (line.length, k) := by
  induction line with
  | nil =>
    simp only [List.nil_append]
    rw [show marker k = '/' :: '/' :: '#' :: natDigits k from rfl]
    simp only [findMarker]
    rw [if_pos (by
      rw [show ('/' : Char) :: '/' :: '#' :: natDigits k = marker k from rfl]
      exact isMarkerFrom_marker k)]
    simp [digitsToNat_natDigits]
  | cons c line ih =>
    have hfm := isMarkerFrom_append_false (t := c :: line) (by simp) k
    simp only [List.cons_append] at hfm ⊢
    simp only [findMarker]
    rw [if_neg (by simp [hfm]), ih]
    simp

theorem stripMarker_append_marker (line : Chars) (k : Nat) :
    stripMarker (line ++ marker k) = line := by
  simp only [stripMarker, findMarker_append_marker]
  exact List.take_left line (marker k)

/-- The lines of the embedded text: each original line with its marker. -/
def markLines : List Chars → Nat → List Chars
  | [], _ => []
  | l :: L, k => (l ++ marker (k + 1)) :: markLines L (k + 1)

theorem markLines_not_newline : ∀ (L : List Chars) (k : Nat),
    (∀ l ∈ L, ('\n' : Char) ∉ l) → ∀ ml ∈ markLines L k, ('\n' : Char) ∉ ml := by
  intro L
  induction L with
  | nil => intro k h ml hml; simp [markLines] at hml
  | cons l L ih =>
    intro k h ml hml
    simp only [markLines, List.mem_cons] at hml
    rcases hml with rfl | hml
    · intro hmem
      rcases List.mem_append.mp hmem with hmem | hmem
      · exact h l (List.mem_cons_self l L) hmem
      · exact marker_not_newline (k + 1) hmem
    · exact ih (k + 1) (fun x hx => h x (List.mem_cons_of_mem l hx)) ml hml

theorem joinNl_cons (l : Chars) (L : List Chars) :
    joinNl (l :: L) = l ++ '\n' :: joinNl L := by
  simp [joinNl]

theorem embedLineNumbersAux_line : ∀ {line : Chars}, ('\n' : Char) ∉ line →
    ∀ (rest : Chars) (k : Nat),
    embedLineNumbersAux (line ++ '\n' :: rest) k
      = line ++ marker (k + 1) ++ '\n' :: embedLineNumbersAux rest (k + 1) := by
  intro line
  induction line with
  | nil => intro _ rest k; simp [embedLineNumbersAux]
  | cons c line ih =>
    intro hnl rest k
    have hc : ¬ c = '\n' := fun h => hnl (h ▸ List.mem_cons_self c line)
    simp only [List.cons_append, embedLineNumbersAux, List.append_eq]
    rw [if_neg hc, ih (fun h => hnl (List.mem_cons_of_mem c h)) rest k]

theorem embedAux_joinNl : ∀ (L : List Chars) (k : Nat), (∀ l ∈ L, ('\n' : Char) ∉ l) →
    embedLineNumbersAux (joinNl L) k = joinNl (markLines L k) := by
  intro L
  induction L with
  | nil => intro k _; rfl
  | cons l L ih =>
    intro k h
    rw [joinNl_cons, embedLineNumbersAux_line (h l (List.mem_cons_self l L)) _ k]
    rw [ih (k + 1) (fun x hx => h x (List.mem_cons_of_mem l hx))]
    rw [show markLines (l :: L) k = (l ++ marker (k + 1)) :: markLines L (k + 1) from rfl,
      joinNl_cons]

theorem splitNl_line : ∀ {a : Chars}, ('\n' : Char) ∉ a → ∀ (rest : Chars),
    splitNl (a ++ '\n' :: rest) = a :: splitNl rest := by
  intro a
  induction a with
  | nil => intro _ rest; simp [splitNl]
  | cons c a ih =>
    intro ha rest
    have hc : ¬ c = '\n' := fun h => ha (h ▸ List.mem_cons_self c a)
    simp only [List.cons_append, splitNl, List.append_eq]
    rw [if_neg hc, ih (fun h => ha (List.mem_cons_of_mem c h)) rest]

theorem splitNl_joinNl : ∀ (L : List Chars), (∀ l ∈ L, ('\n' : Char) ∉ l) →
    splitNl (joinNl L) = L ++ [[]] := by
  intro L
  induction L with
  | nil => intro _; rfl
  | cons l L ih =>
    intro h
    rw [joinNl_cons, splitNl_line (h l (List.mem_cons_self l L)),
      ih (fun x hx => h x (List.mem_cons_of_mem l hx))]
    rfl

theorem intercalate_append_nil : ∀ (L : List Chars),
    List.intercalate ['\n'] (L ++ [([] : Chars)]) = joinNl L := by
  intro L
  induction L with
  | nil => simpa using intercalate_nl_single []
  | cons l L ih =>
    cases hL : L ++ [([] : Chars)] with
    | nil => exact absurd hL (by simp)
    | cons y ys =>
      rw [List.cons_append, hL, intercalate_nl_cons, ← hL, ih, joinNl_cons]

/-- The identity-shaped marker map: `n` entries `(j+1, k+1), (j+2, k+2), …`. -/
def shiftPairs : Nat → Nat → Nat → List (Nat × Nat)
  | _, _, 0 => []
  | j, k, n + 1 => (j + 1, k + 1) :: shiftPairs (j + 1) (k + 1) n

theorem markLines_strip : ∀ (L : List Chars) (k : Nat),
    (markLines L k).map stripMarker = L := by
  intro L
  induction L with
  | nil => intro k; rfl
  | cons l L ih =>
    intro k
    simp only [markLines, List.map_cons, stripMarker_append_marker, ih (k + 1)]

theorem buildMap_markLines : ∀ (L : List Chars) (j k : Nat),
    buildMap (markLines L k ++ [([] : Chars)]) j = shiftPairs j k L.length := by
  intro L
  induction L with
  | nil =>
    intro j k
    simp [markLines, buildMap, findMarker, isMarkerFrom, shiftPairs]
  | cons l L ih =>
    intro j k
    simp only [markLines, List.cons_append, buildMap, findMarker_append_marker,
      List.append_eq]
    rw [ih (j + 1) (k + 1)]
    rfl

theorem shiftPairs_mem : ∀ (n j p v : Nat),
    ((p, v) ∈ shiftPairs j j n) ↔ (j + 1 ≤ p ∧ p ≤ j + n ∧ v = p) := by
  intro n
  induction n with
  | zero => intro j p v; simp [shiftPairs]; omega
  | succ n ih =>
    intro j p v
    simp only [shiftPairs, List.mem_cons, Prod.mk.injEq, ih (j + 1)]
    omega

theorem embedLineNumbers_eq {code : Chars} (h : code ≠ []) :
    embedLineNumbers code
      = .ok (embedLineNumbersAux
          (code ++ (if code.getLast? = some '\n' then [] else ['\n'])) 0) := by
  cases hg : code.getLast? with
  | none => exact absurd (List.getLast?_eq_none_iff.mp hg) h
  | some c =>
    unfold embedLineNumbers
    rw [hg]
    dsimp only
    by_cases hc : c = '\n'
    · subst hc
      simp
    · simp [hc]

theorem exists_joinNl : ∀ (n : Nat) (s : Chars), s.length ≤ n →
    s.getLast? = some '\n' →
    ∃ L : List Chars, (∀ l ∈ L, ('\n' : Char) ∉ l) ∧ s = joinNl L := by
  intro n
  induction n with
  | zero =>
    intro s hlen hlast
    have : s = [] := List.length_eq_zero.mp (by omega)
    subst this
    simp at hlast
  | succ n ih =>
    intro s hlen hlast
    cases s with
    | nil => simp at hlast
    | cons c t =>
      by_cases hc : c = '\n'
      · subst hc
        cases t with
        | nil => exact ⟨[[]], by simp, rfl⟩
        | cons d u =>
          have hlast' : (d :: u).getLast? = some '\n' := by
            rw [← hlast]
            exact (List.getLast?_cons_cons ..).symm
          obtain ⟨L, hLnl, hL⟩ := ih (d :: u) (by simpa using Nat.le_of_succ_le_succ hlen) hlast'
          exact ⟨[] :: L, by simpa using hLnl, by rw [joinNl_cons, ← hL]; rfl⟩
      · cases t with
        | nil =>
          rw [List.getLast?_singleton] at hlast
          simp at hlast
          exact absurd hlast hc
        | cons d u =>
          have hlast' : (d :: u).getLast? = some '\n' := by
            rw [← hlast]
            exact (List.getLast?_cons_cons ..).symm
          obtain ⟨L, hLnl, hL⟩ := ih (d :: u) (by simpa using Nat.le_of_succ_le_succ hlen) hlast'
          cases L with
          | nil => rw [hL] at hlast'; simp [joinNl] at hlast'
          | cons l L' =>
            refine ⟨(c :: l) :: L', ?_, ?_⟩
            · intro x hx
              rcases List.mem_cons.mp hx with rfl | hx
              · intro hmem
                rcases List.mem_cons.mp hmem with hmem | hmem
                · exact hc hmem.symm
                · exact hLnl l (List.mem_cons_self l L') hmem
              · exact hLnl x (List.mem_cons_of_mem l hx)
            · rw [joinNl_cons]
              rw [joinNl_cons] at hL
              rw [show ((c :: l) ++ '\n' :: joinNl L') = c :: (l ++ '\n' :: joinNl L') from rfl]
              rw [← hL]

/-! ## C4 -/

/-- C4 (confirmed): for every nonempty fragment (equivalently, whenever
`embedLineNumbers` does not panic), the fragment with a trailing line break
appended if missing decomposes into its `N` newline-free lines `L`, and
`extractLineNumbers ∘ embedLineNumbers` returns exactly that original text
together with the map `{i ↦ i : 1 ≤ i ≤ N}`: every original line number
`1..N` appears as a value for the corresponding marker-bearing physical
line, and only the numbers `1..N` occur as keys — the final, marker-free
physical line is absent from the map. -/
theorem C4_line_tracker (code emb : Chars) (hemb : embedLineNumbers code = .ok emb) :
    ∃ L : List Chars,
      (∀ l ∈ L, ('\n' : Char) ∉ l) ∧
      code ++ (if code.getLast? = some '\n' then [] else ['\n']) = joinNl L ∧
      extractLineNumbers emb = (joinNl L, shiftPairs 0 0 L.length) ∧
      (∀ i, 1 ≤ i → i ≤ L.length → (i, i) ∈ shiftPairs 0 0 L.length) ∧
      (∀ p v, (p, v) ∈ shiftPairs 0 0 L.length → 1 ≤ p ∧ p ≤ L.length ∧ v = p) := by
  have hne : code ≠ [] := by
    intro h
    subst h
    simp [embedLineNumbers] at hemb
  have hembEq := embedLineNumbers_eq hne
  rw [hembEq] at hemb
  have hemb' : emb
      = embedLineNumbersAux (code ++ (if code.getLast? = some '\n' then [] else ['\n'])) 0 := by
    cases hemb
    rfl
  have hlast : (code ++ (if code.getLast? = some '\n' then [] else ['\n'])).getLast?
      = some '\n' := by
    by_cases h : code.getLast? = some '\n'
    · simp only [h, if_true, reduceIte, List.append_nil]
    · simp [h, List.getLast?_concat]
  obtain ⟨L, hLnl, hjoin⟩ := exists_joinNl
    (code ++ (if code.getLast? = some '\n' then [] else ['\n'])).length _ (le_refl _) hlast
  have hmarked : emb = joinNl (markLines L 0) := by
    rw [hemb', hjoin]
    exact embedAux_joinNl L 0 hLnl
  have hsplit : splitNl emb = markLines L 0 ++ [[]] := by
    rw [hmarked]
    exact splitNl_joinNl (markLines L 0) (markLines_not_newline L 0 hLnl)
  refine ⟨L, hLnl, hjoin, ?_, ?_, ?_⟩
  · unfold extractLineNumbers
    rw [hsplit, List.map_append, markLines_strip,
      show ([([] : Chars)]).map stripMarker = [([] : Chars)] from rfl,
      intercalate_append_nil, buildMap_markLines]
  · intro i h1 h2
    exact (shiftPairs_mem L.length 0 i i).mpr ⟨h1, by omega, rfl⟩
  · intro p v h
    have := (shiftPairs_mem L.length 0 p v).mp h
    omega

/-- Witness for `C4_line_tracker` on the two-line fragment `a`/`b` without
a trailing newline. -/
theorem C4_line_tracker_witness :
    ∃ L : List Chars,
      (∀ l ∈ L, ('\n' : Char) ∉ l) ∧
      "a\nb".data ++ (if ("a\nb".data : Chars).getLast? = some '\n' then [] else ['\n'])
        = joinNl L ∧
      extractLineNumbers "a//#1\nb//#2\n".data = (joinNl L, shiftPairs 0 0 L.length) ∧
      (∀ i, 1 ≤ i → i ≤ L.length → (i, i) ∈ shiftPairs 0 0 L.length) ∧
      (∀ p v, (p, v) ∈ shiftPairs 0 0 L.length → 1 ≤ p ∧ p ≤ L.length ∧ v = p) :=
  C4_line_tracker "a\nb".data "a//#1\nb//#2\n".data rfl

end Gore
